import Mathlib

/-!
Shallow embedding of the recommendation engine of the meeting-scheduler
repository (services/services.go, function GetRecommendations, together with
the data model of models/models.go).

Modelling choices:
* Timestamps and durations are integers counted in minutes (Go works with
  nanosecond-precision `time.Time`, but every constant involved — the 15-minute
  walking step and the event duration — is a whole number of minutes).
* The matching percentage, a `float64` in Go, is modelled as an exact rational.
* The four repository reads consumed by the engine are modelled as
  `Except`-valued snapshot inputs; the engine itself is the pure computation
  the Go function performs on their results.
-/

namespace MeetingScheduler

/-- models.User (models/models.go): the engine uses only the identity. -/
structure User where
  id : Nat
  name : String
  email : String
  timezone : String
  deriving DecidableEq

/-- models.Event (models/models.go). -/
structure Event where
  id : Nat
  title : String
  description : String
  organizerId : Nat
  durationMinutes : Int
  deriving DecidableEq

/-- models.TimeSlot (models/models.go); times in minutes. -/
structure TimeSlot where
  id : Nat
  eventID : Nat
  startTime : Int
  endTime : Int
  deriving DecidableEq

/-- models.UserAvailability (models/models.go); times in minutes. -/
structure UserAvailability where
  id : Nat
  userID : Nat
  eventID : Nat
  startTime : Int
  endTime : Int
  deriving DecidableEq

/-- models.TimeSlotRecommendation (models/models.go). -/
structure TimeSlotRecommendation where
  timeSlot : TimeSlot
  matchingUsers : List User
  nonMatchingUsers : List User
  matchingPercentage : ℚ
  eventDuration : Int
  startOptions : List Int
  deriving DecidableEq

/-- The four repository reads GetRecommendations performs
(eventRepo.FindByID, timeSlotRepo.FindByEventID, availabilityRepo.FindByEvent,
availabilityRepo.FindAllUsersByEvent), taken as snapshot inputs. -/
structure Collaborators where
  findEventByID : Except String Event
  findTimeSlotsByEventID : Except String (List TimeSlot)
  findAvailabilitiesByEvent : Except String (List UserAvailability)
  findAllUsersByEvent : Except String (List User)

/-- The availability-map lookup `availabilityMap[user.ID]`
(services.go lines 195-198, 225): grouping `allAvailabilities` by user id with
appends preserves the original order, so the lookup equals a filter. -/
def availabilitiesFor (allAvailabilities : List UserAvailability) (uid : Nat) :
    List UserAvailability :=
  allAvailabilities.filter (fun avail => avail.userID == uid)

/-- The per-user availability test of services.go lines 226-232:
`!startTime.Before(avail.StartTime) && !endTime.After(avail.EndTime)` with
`endTime = startTime + durationMinutes`, over any of the user's intervals. -/
def isUserAvailable (allAvailabilities : List UserAvailability)
    (durationMinutes startTime : Int) (user : User) : Bool :=
  (availabilitiesFor allAvailabilities user.id).any fun avail =>
    decide (avail.startTime ≤ startTime) &&
      decide (startTime + durationMinutes ≤ avail.endTime)

/-- The `matchingUsers` list built for one candidate start
(services.go lines 220-238): the single pass appending each available user
equals a filter of `users` in order. -/
def matchingUsersAt (users : List User) (allAvailabilities : List UserAvailability)
    (durationMinutes startTime : Int) : List User :=
  users.filter (isUserAvailable allAvailabilities durationMinutes startTime)

/-- The `nonMatchingUsers` list built for one candidate start
(services.go lines 220-238). -/
def nonMatchingUsersAt (users : List User) (allAvailabilities : List UserAvailability)
    (durationMinutes startTime : Int) : List User :=
  users.filter (fun user => ! isUserAvailable allAvailabilities durationMinutes startTime user)

/-- Fuel-counted helper for the candidate-start walk; the fuel bound makes the
recursion structural so that concrete runs compute by reduction. -/
def candidateStartsFuel : Nat → Int → Int → List Int
  | 0, _, _ => []
  | fuel + 1, startTime, maxStartTime =>
    if startTime ≤ maxStartTime then
      startTime :: candidateStartsFuel fuel (startTime + 15) maxStartTime
    else []

/-- The candidate start timestamps visited by the loop of services.go line 218:
`for startTime := slot.StartTime; !startTime.After(maxStartTime);
startTime = startTime.Add(15 * time.Minute)`. -/
def candidateStarts (startTime maxStartTime : Int) : List Int :=
  candidateStartsFuel (maxStartTime + 15 - startTime).toNat startTime maxStartTime

/-- The per-slot mutable state of services.go lines 204-206. -/
structure WalkState where
  bestMatchingUsers : List User
  bestNonMatchingUsers : List User
  startOptions : List Int
  deriving DecidableEq

/-- The initial per-slot state (all three slices start out nil). -/
def initState : WalkState :=
  { bestMatchingUsers := [], bestNonMatchingUsers := [], startOptions := [] }

/-- One iteration of the candidate walk, services.go lines 218-248: compute the
attendance partition at this candidate start, then either record a strictly
better best, append a tied (non-zero) start option, or leave the state alone. -/
def walkStep (users : List User) (allAvailabilities : List UserAvailability)
    (durationMinutes : Int) (st : WalkState) (startTime : Int) : WalkState :=
  let matchingUsers := matchingUsersAt users allAvailabilities durationMinutes startTime
  let nonMatchingUsers := nonMatchingUsersAt users allAvailabilities durationMinutes startTime
  if st.bestMatchingUsers.length < matchingUsers.length then
    { bestMatchingUsers := matchingUsers
      bestNonMatchingUsers := nonMatchingUsers
      startOptions := [startTime] }
  else if matchingUsers.length = st.bestMatchingUsers.length ∧ 0 < matchingUsers.length then
    { st with startOptions := st.startOptions ++ [startTime] }
  else st

/-- The state after the whole candidate walk of one slot
(services.go lines 214-249), with `maxStartTime = slot.EndTime - duration`. -/
def walkResult (durationMinutes : Int) (users : List User)
    (allAvailabilities : List UserAvailability) (slot : TimeSlot) : WalkState :=
  let maxStartTime := slot.endTime - durationMinutes
  (candidateStarts slot.startTime maxStartTime).foldl
    (walkStep users allAvailabilities durationMinutes) initState

/-- The per-slot body of services.go lines 203-268: skip slots shorter than the
event duration, walk the candidate starts, skip the slot when no candidate has
an attending user, otherwise emit the recommendation record. -/
def slotRecommendation (durationMinutes : Int) (users : List User)
    (allAvailabilities : List UserAvailability) (slot : TimeSlot) :
    Option TimeSlotRecommendation :=
  if slot.endTime - slot.startTime < durationMinutes then none
  else
    let final := walkResult durationMinutes users allAvailabilities slot
    if final.bestMatchingUsers.length = 0 then none
    else some {
      timeSlot := slot
      matchingUsers := final.bestMatchingUsers
      nonMatchingUsers := final.bestNonMatchingUsers
      matchingPercentage :=
        (final.bestMatchingUsers.length : ℚ) / (users.length : ℚ) * 100
      eventDuration := durationMinutes
      startOptions := final.startOptions }

/-- Stable descending insertion on the comparator of services.go line 272,
`recommendations[i].MatchingPercentage > recommendations[j].MatchingPercentage`. -/
def insertRec (a : TimeSlotRecommendation) :
    List TimeSlotRecommendation → List TimeSlotRecommendation
  | [] => [a]
  | b :: l =>
    if b.matchingPercentage < a.matchingPercentage then a :: b :: l
    else b :: insertRec a l

/-- The sort of services.go lines 270-273 (`sort.Slice` on the strict-greater
comparator), realised here as an insertion sort — the algorithm Go itself runs
for the slice lengths below its partition threshold. -/
def sortRecommendations : List TimeSlotRecommendation → List TimeSlotRecommendation
  | [] => []
  | a :: l => insertRec a (sortRecommendations l)

/-- services.go lines 167-276, GetRecommendations: fetch the event, the time
slots, the availabilities and the distinct users (propagating any fetch error),
build one optional recommendation per slot in order, and sort the result. -/
def GetRecommendations (c : Collaborators) :
    Except String (List TimeSlotRecommendation) := do
  let event ← c.findEventByID
  let timeSlots ← c.findTimeSlotsByEventID
  let allAvailabilities ← c.findAvailabilitiesByEvent
  let users ← c.findAllUsersByEvent
  let recommendations := timeSlots.filterMap
    (slotRecommendation event.durationMinutes users allAvailabilities)
  pure (sortRecommendations recommendations)

/-! ### Properties of the candidate-start walk -/

theorem candidateStartsFuel_congr : ∀ {fuel fuel' : Nat} {s m : Int},
    (m + 15 - s).toNat ≤ fuel → (m + 15 - s).toNat ≤ fuel' →
    candidateStartsFuel fuel s m = candidateStartsFuel fuel' s m := by
  intro fuel
  induction fuel with
  | zero =>
    intro fuel' s m h h'
    have hms : ¬ s ≤ m := by omega
    cases fuel' with
    | zero => rfl
    | succ n => simp [candidateStartsFuel, hms]
  | succ n ih =>
    intro fuel' s m h h'
    cases fuel' with
    | zero =>
      have hms : ¬ s ≤ m := by omega
      simp [candidateStartsFuel, hms]
    | succ n' =>
      simp only [candidateStartsFuel]
      by_cases hms : s ≤ m
      · rw [if_pos hms, if_pos hms]
        exact congrArg (List.cons s) (ih (by omega) (by omega))
      · rw [if_neg hms, if_neg hms]

/-- The natural unfolding of the loop: take the current start if it has not
passed the latest permissible start, then step forward 15 minutes. -/
theorem candidateStarts_unfold (s m : Int) :
    candidateStarts s m =
      if s ≤ m then s :: candidateStarts (s + 15) m else [] := by
  unfold candidateStarts
  by_cases hms : s ≤ m
  · rw [if_pos hms]
    have h1 : (m + 15 - s).toNat = ((m + 15 - s).toNat - 1) + 1 := by omega
    rw [h1]
    simp only [candidateStartsFuel, if_pos hms]
    rw [@candidateStartsFuel_congr ((m + 15 - s).toNat - 1) ((m + 15 - (s + 15)).toNat)
      (s + 15) m (by omega) (by omega)]
  · rw [if_neg hms]
    have h0 : ∀ fuel, (m + 15 - s).toNat ≤ fuel →
        candidateStartsFuel fuel s m = [] := by
      intro fuel hf
      cases fuel with
      | zero => rfl
      | succ n => simp [candidateStartsFuel, hms]
    exact h0 _ le_rfl

theorem mem_candidateStarts {s m t : Int} (h : t ∈ candidateStarts s m) :
    s ≤ t ∧ t ≤ m ∧ ∃ k : Nat, t = s + 15 * k := by
  unfold candidateStarts at h
  generalize hn : (m + 15 - s).toNat = fuel at h
  clear hn
  induction fuel generalizing s with
  | zero => simp [candidateStartsFuel] at h
  | succ n ih =>
    simp only [candidateStartsFuel] at h
    by_cases hms : s ≤ m
    · rw [if_pos hms] at h
      rcases List.mem_cons.mp h with rfl | h
      · exact ⟨le_refl t, hms, 0, by ring⟩
      · obtain ⟨h1, h2, k, hk⟩ := ih h
        refine ⟨by omega, h2, k + 1, ?_⟩
        push_cast
        omega
    · rw [if_neg hms] at h
      simp at h

/-! ### Case analysis of one walk iteration -/

theorem walkStep_improve {users : List User} {allAvailabilities : List UserAvailability}
    {durationMinutes : Int} {st : WalkState} {t : Int}
    (h : st.bestMatchingUsers.length <
      (matchingUsersAt users allAvailabilities durationMinutes t).length) :
    walkStep users allAvailabilities durationMinutes st t =
      { bestMatchingUsers := matchingUsersAt users allAvailabilities durationMinutes t
        bestNonMatchingUsers := nonMatchingUsersAt users allAvailabilities durationMinutes t
        startOptions := [t] } := by
  simp [walkStep, h]

theorem walkStep_tie {users : List User} {allAvailabilities : List UserAvailability}
    {durationMinutes : Int} {st : WalkState} {t : Int}
    (h1 : (matchingUsersAt users allAvailabilities durationMinutes t).length =
      st.bestMatchingUsers.length)
    (h2 : 0 < (matchingUsersAt users allAvailabilities durationMinutes t).length) :
    walkStep users allAvailabilities durationMinutes st t =
      { st with startOptions := st.startOptions ++ [t] } := by
  have hno : ¬ st.bestMatchingUsers.length <
      (matchingUsersAt users allAvailabilities durationMinutes t).length := by omega
  simp only [walkStep]
  rw [if_neg hno, if_pos (And.intro h1 h2)]

theorem walkStep_keep {users : List User} {allAvailabilities : List UserAvailability}
    {durationMinutes : Int} {st : WalkState} {t : Int}
    (h1 : ¬ st.bestMatchingUsers.length <
      (matchingUsersAt users allAvailabilities durationMinutes t).length)
    (h2 : ¬ ((matchingUsersAt users allAvailabilities durationMinutes t).length =
        st.bestMatchingUsers.length ∧
      0 < (matchingUsersAt users allAvailabilities durationMinutes t).length)) :
    walkStep users allAvailabilities durationMinutes st t = st := by
  simp only [walkStep, if_neg h1, if_neg h2]

/-! ### The walk invariant: the recorded best is the partition computed at the
earliest candidate achieving the maximum attending count -/

theorem walk_foldl_spec (users : List User) (allAvailabilities : List UserAvailability)
    (durationMinutes : Int) (l : List Int) :
    (l.foldl (walkStep users allAvailabilities durationMinutes) initState = initState ∧
      ∀ t ∈ l, (matchingUsersAt users allAvailabilities durationMinutes t).length = 0) ∨
    ∃ t₀ l₁ l₂, l = l₁ ++ t₀ :: l₂ ∧
      0 < (matchingUsersAt users allAvailabilities durationMinutes t₀).length ∧
      (∀ t ∈ l₁, (matchingUsersAt users allAvailabilities durationMinutes t).length <
        (matchingUsersAt users allAvailabilities durationMinutes t₀).length) ∧
      (∀ t ∈ l₂, (matchingUsersAt users allAvailabilities durationMinutes t).length ≤
        (matchingUsersAt users allAvailabilities durationMinutes t₀).length) ∧
      (l.foldl (walkStep users allAvailabilities durationMinutes) initState).bestMatchingUsers =
        matchingUsersAt users allAvailabilities durationMinutes t₀ ∧
      (l.foldl (walkStep users allAvailabilities durationMinutes)
          initState).bestNonMatchingUsers =
        nonMatchingUsersAt users allAvailabilities durationMinutes t₀ := by
  induction l using List.reverseRecOn with
  | nil => exact Or.inl ⟨rfl, by simp⟩
  | append_singleton l t ih =>
    rw [List.foldl_append, List.foldl_cons, List.foldl_nil]
    rcases ih with ⟨hst, hzero⟩ | ⟨t₀, l₁, l₂, heq, hpos, hlt, hle, hbest, hnon⟩
    · rw [hst]
      by_cases hc : 0 < (matchingUsersAt users allAvailabilities durationMinutes t).length
      · right
        refine ⟨t, l, [], by simp, hc, fun x hx => ?_, by simp, ?_, ?_⟩
        · rw [hzero x hx]; exact hc
        · rw [walkStep_improve (by simpa [initState] using hc)]
        · rw [walkStep_improve (by simpa [initState] using hc)]
      · left
        have hc0 : (matchingUsersAt users allAvailabilities durationMinutes t).length = 0 := by
          omega
        refine ⟨?_, fun x hx => ?_⟩
        · rw [walkStep_keep (by simp [initState, hc0]) (by simp [hc0])]
        · rcases List.mem_append.mp hx with hx | hx
          · exact hzero x hx
          · rw [List.mem_singleton.mp hx]; exact hc0
    · have hblen : (l.foldl (walkStep users allAvailabilities durationMinutes)
          initState).bestMatchingUsers.length =
          (matchingUsersAt users allAvailabilities durationMinutes t₀).length := by
        rw [hbest]
      rcases lt_trichotomy
          (matchingUsersAt users allAvailabilities durationMinutes t).length
          (matchingUsersAt users allAvailabilities durationMinutes t₀).length with hcmp | hcmp | hcmp
      · right
        refine ⟨t₀, l₁, l₂ ++ [t], by rw [heq]; simp, hpos, hlt, fun x hx => ?_, ?_, ?_⟩
        · rcases List.mem_append.mp hx with hx | hx
          · exact hle x hx
          · rw [List.mem_singleton.mp hx]; exact le_of_lt hcmp
        · rw [walkStep_keep (by omega) (by omega), hbest]
        · rw [walkStep_keep (by omega) (by omega), hnon]
      · right
        refine ⟨t₀, l₁, l₂ ++ [t], by rw [heq]; simp, hpos, hlt, fun x hx => ?_, ?_, ?_⟩
        · rcases List.mem_append.mp hx with hx | hx
          · exact hle x hx
          · rw [List.mem_singleton.mp hx]; exact le_of_eq hcmp
        · rw [walkStep_tie (by omega) (by omega), hbest]
        · rw [walkStep_tie (by omega) (by omega), hnon]
      · right
        refine ⟨t, l₁ ++ t₀ :: l₂, [], by rw [heq], by omega, fun x hx => ?_, by simp, ?_, ?_⟩
        · rcases List.mem_append.mp hx with hx | hx
          · exact lt_trans (hlt x hx) hcmp
          · rcases List.mem_cons.mp hx with rfl | hx
            · exact hcmp
            · exact lt_of_le_of_lt (hle x hx) hcmp
        · rw [walkStep_improve (by omega)]
        · rw [walkStep_improve (by omega)]

/-- Every recorded start option was one of the visited candidate starts. -/
theorem walk_startOptions_mem (users : List User)
    (allAvailabilities : List UserAvailability) (durationMinutes : Int) (l : List Int) :
    ∀ t ∈ (l.foldl (walkStep users allAvailabilities durationMinutes)
      initState).startOptions, t ∈ l := by
  induction l using List.reverseRecOn with
  | nil => simp [initState]
  | append_singleton l t ih =>
    rw [List.foldl_append, List.foldl_cons, List.foldl_nil]
    intro x hx
    simp only [walkStep] at hx
    split at hx
    · rw [List.mem_singleton.mp hx]
      exact List.mem_append_right l (List.mem_singleton.mpr rfl)
    · split at hx
      · rcases List.mem_append.mp hx with hx | hx
        · exact List.mem_append_left _ (ih x hx)
        · rw [List.mem_singleton.mp hx]
          exact List.mem_append_right l (List.mem_singleton.mpr rfl)
      · exact List.mem_append_left _ (ih x hx)

/-! ### The sort: permutation, membership, descending order, stability -/

theorem mem_insertRec {a x : TimeSlotRecommendation} {l : List TimeSlotRecommendation} :
    x ∈ insertRec a l ↔ x = a ∨ x ∈ l := by
  induction l with
  | nil => simp [insertRec]
  | cons b l ih =>
    simp only [insertRec]
    split
    · simp [List.mem_cons]
    · rw [List.mem_cons, ih, List.mem_cons]
      tauto

theorem mem_sortRecommendations {x : TimeSlotRecommendation}
    {l : List TimeSlotRecommendation} :
    x ∈ sortRecommendations l ↔ x ∈ l := by
  induction l with
  | nil => simp [sortRecommendations]
  | cons a l ih =>
    simp only [sortRecommendations]
    rw [mem_insertRec, ih, List.mem_cons]

theorem pairwise_insertRec {a : TimeSlotRecommendation} {l : List TimeSlotRecommendation}
    (h : l.Pairwise (fun x y => y.matchingPercentage ≤ x.matchingPercentage)) :
    (insertRec a l).Pairwise (fun x y => y.matchingPercentage ≤ x.matchingPercentage) := by
  induction l with
  | nil => simp [insertRec]
  | cons b l ih =>
    rcases List.pairwise_cons.mp h with ⟨hb, hl⟩
    simp only [insertRec]
    split
    · rename_i hlt
      refine List.pairwise_cons.mpr ⟨?_, h⟩
      intro y hy
      rcases List.mem_cons.mp hy with rfl | hy
      · exact le_of_lt hlt
      · exact le_trans (hb y hy) (le_of_lt hlt)
    · rename_i hge
      refine List.pairwise_cons.mpr ⟨?_, ih hl⟩
      intro y hy
      rcases mem_insertRec.mp hy with rfl | hy
      · exact not_lt.mp hge
      · exact hb y hy

theorem pairwise_sortRecommendations (l : List TimeSlotRecommendation) :
    (sortRecommendations l).Pairwise
      (fun x y => y.matchingPercentage ≤ x.matchingPercentage) := by
  induction l with
  | nil => simp [sortRecommendations]
  | cons a l ih => exact pairwise_insertRec ih

/-! ### Characterizing an emitted recommendation -/

theorem slotRecommendation_some {durationMinutes : Int} {users : List User}
    {allAvailabilities : List UserAvailability} {slot : TimeSlot}
    {r : TimeSlotRecommendation}
    (h : slotRecommendation durationMinutes users allAvailabilities slot = some r) :
    ¬ slot.endTime - slot.startTime < durationMinutes ∧
    (walkResult durationMinutes users allAvailabilities slot).bestMatchingUsers ≠ [] ∧
    r.timeSlot = slot ∧
    r.matchingUsers =
      (walkResult durationMinutes users allAvailabilities slot).bestMatchingUsers ∧
    r.nonMatchingUsers =
      (walkResult durationMinutes users allAvailabilities slot).bestNonMatchingUsers ∧
    r.matchingPercentage =
      ((walkResult durationMinutes users allAvailabilities slot).bestMatchingUsers.length : ℚ)
        / (users.length : ℚ) * 100 ∧
    r.eventDuration = durationMinutes ∧
    r.startOptions = (walkResult durationMinutes users allAvailabilities slot).startOptions := by
  unfold slotRecommendation at h
  split at h
  · exact absurd h (by simp)
  · simp only at h
    split at h
    · exact absurd h (by simp)
    · rename_i hspan hlen
      obtain rfl := Option.some.inj h
      exact ⟨hspan, fun hnil => hlen (by rw [hnil]; rfl), rfl, rfl, rfl, rfl, rfl, rfl⟩

/-- A slot whose walk never finds an attending user — in particular any slot
when the user list is empty — produces no recommendation. -/
theorem slotRecommendation_none_of_no_attendance {durationMinutes : Int}
    {users : List User} {allAvailabilities : List UserAvailability} {slot : TimeSlot}
    (hz : users = [] ∨
      ∀ t ∈ candidateStarts slot.startTime (slot.endTime - durationMinutes),
        matchingUsersAt users allAvailabilities durationMinutes t = []) :
    slotRecommendation durationMinutes users allAvailabilities slot = none := by
  unfold slotRecommendation
  split
  · rfl
  · simp only
    have hzero : ∀ t ∈ candidateStarts slot.startTime (slot.endTime - durationMinutes),
        (matchingUsersAt users allAvailabilities durationMinutes t).length = 0 := by
      rcases hz with rfl | hz
      · intro t _
        simp [matchingUsersAt]
      · intro t ht
        rw [hz t ht]
        rfl
    have hres : (walkResult durationMinutes users allAvailabilities
        slot).bestMatchingUsers.length = 0 := by
      unfold walkResult
      rcases walk_foldl_spec users allAvailabilities durationMinutes
          (candidateStarts slot.startTime (slot.endTime - durationMinutes)) with
        ⟨hst, _⟩ | ⟨t₀, l₁, l₂, heq, hpos, _, _, _, _⟩
      · rw [hst]
        rfl
      · have ht₀ : t₀ ∈ candidateStarts slot.startTime (slot.endTime - durationMinutes) := by
          rw [heq]
          exact List.mem_append_right l₁ (List.mem_cons_self t₀ l₂)
        rw [hzero t₀ ht₀] at hpos
        exact absurd hpos (by omega)
    rw [if_pos hres]

/-- Unfolding a successful run of GetRecommendations into its four collaborator
snapshots and the per-slot computation. -/
theorem getRecommendations_ok {c : Collaborators} {recs : List TimeSlotRecommendation}
    (h : GetRecommendations c = .ok recs) :
    ∃ event timeSlots allAvailabilities users,
      c.findEventByID = Except.ok event ∧
      c.findTimeSlotsByEventID = Except.ok timeSlots ∧
      c.findAvailabilitiesByEvent = Except.ok allAvailabilities ∧
      c.findAllUsersByEvent = Except.ok users ∧
      recs = sortRecommendations (timeSlots.filterMap
        (slotRecommendation event.durationMinutes users allAvailabilities)) := by
  unfold GetRecommendations at h
  cases hev : c.findEventByID with
  | error e => rw [hev] at h; exact Except.noConfusion h
  | ok event =>
    rw [hev] at h
    cases hts : c.findTimeSlotsByEventID with
    | error e => rw [hts] at h; exact Except.noConfusion h
    | ok timeSlots =>
      rw [hts] at h
      cases hav : c.findAvailabilitiesByEvent with
      | error e => rw [hav] at h; exact Except.noConfusion h
      | ok allAvailabilities =>
        rw [hav] at h
        cases hus : c.findAllUsersByEvent with
        | error e => rw [hus] at h; exact Except.noConfusion h
        | ok users =>
          rw [hus] at h
          refine ⟨event, timeSlots, allAvailabilities, users, rfl, rfl, rfl, rfl, ?_⟩
          have := (Except.ok.inj h).symm
          exact this

/-- Every recommendation of a successful run originates from one of the fetched
slots via the per-slot computation. -/
theorem rec_origin {c : Collaborators} {recs : List TimeSlotRecommendation}
    {r : TimeSlotRecommendation}
    (h : GetRecommendations c = .ok recs) (hr : r ∈ recs) :
    ∃ event timeSlots allAvailabilities users slot,
      c.findEventByID = Except.ok event ∧
      c.findTimeSlotsByEventID = Except.ok timeSlots ∧
      c.findAvailabilitiesByEvent = Except.ok allAvailabilities ∧
      c.findAllUsersByEvent = Except.ok users ∧
      slot ∈ timeSlots ∧
      slotRecommendation event.durationMinutes users allAvailabilities slot = some r := by
  obtain ⟨event, timeSlots, allAvailabilities, users, hev, hts, hav, hus, hrecs⟩ :=
    getRecommendations_ok h
  rw [hrecs] at hr
  rw [mem_sortRecommendations] at hr
  obtain ⟨slot, hslot, hsr⟩ := List.mem_filterMap.mp hr
  exact ⟨event, timeSlots, allAvailabilities, users, slot, hev, hts, hav, hus, hslot, hsr⟩

/-! ### A concrete scenario (spec §8, scenarios 6/7): one 60-minute event, a
10:00-12:00 slot, a too-short 10:00-10:30 slot, user A free 10:30-11:30 and
user B free 10:00-12:00; minutes counted from midnight. -/

def userA : User := { id := 1, name := "A", email := "a@example.com", timezone := "UTC" }

def userB : User := { id := 2, name := "B", email := "b@example.com", timezone := "UTC" }

def exampleEvent : Event :=
  { id := 1, title := "standup", description := "", organizerId := 1, durationMinutes := 60 }

def exampleSlot : TimeSlot := { id := 1, eventID := 1, startTime := 600, endTime := 720 }

def shortSlot : TimeSlot := { id := 2, eventID := 1, startTime := 600, endTime := 630 }

def exampleAvailabilities : List UserAvailability :=
  [ { id := 1, userID := 1, eventID := 1, startTime := 630, endTime := 690 },
    { id := 2, userID := 2, eventID := 1, startTime := 600, endTime := 720 } ]

def exampleUsers : List User := [userA, userB]

def exampleCollaborators : Collaborators :=
  { findEventByID := .ok exampleEvent
    findTimeSlotsByEventID := .ok [exampleSlot, shortSlot]
    findAvailabilitiesByEvent := .ok exampleAvailabilities
    findAllUsersByEvent := .ok exampleUsers }

/-- The single recommendation the engine produces for the scenario: both users
fit only at 10:30, the short slot is dropped. -/
def exampleRecommendation : TimeSlotRecommendation :=
  { timeSlot := exampleSlot, matchingUsers := [userA, userB], nonMatchingUsers := [],
    matchingPercentage := 100, eventDuration := 60, startOptions := [630] }

theorem getRecommendations_example :
    GetRecommendations exampleCollaborators = .ok [exampleRecommendation] := by
  have h : GetRecommendations exampleCollaborators = .ok
      [{ exampleRecommendation with
          matchingPercentage := ((2 : ℕ) : ℚ) / ((2 : ℕ) : ℚ) * 100 }] := rfl
  rw [h]
  simp [exampleRecommendation]

/-! ### The claims -/

/-- C1: for every time slot whose span (end time minus start time) is strictly
less than the event's required duration in minutes, GetRecommendations produces
no recommendation for that slot, regardless of any availability data. -/
theorem C1_short_slot_produces_no_recommendation {c : Collaborators}
    {recs : List TimeSlotRecommendation} {event : Event} {slot : TimeSlot}
    (h : GetRecommendations c = .ok recs) (hev : c.findEventByID = .ok event)
    (hshort : slot.endTime - slot.startTime < event.durationMinutes) :
    ∀ r ∈ recs, r.timeSlot ≠ slot := by
  intro r hr hcontra
  obtain ⟨event', timeSlots, allAvailabilities, users, slot', hev', hts, hav, hus, hslot, hsr⟩ :=
    rec_origin h hr
  rw [hev] at hev'
  obtain rfl := Except.ok.inj hev'
  obtain ⟨hspan, -, hts', -⟩ := slotRecommendation_some hsr
  rw [hcontra] at hts'
  rw [hts'] at hshort
  exact hspan hshort

theorem C1_witness : exampleRecommendation.timeSlot ≠ shortSlot :=
  C1_short_slot_produces_no_recommendation
    getRecommendations_example rfl (by decide)
    exampleRecommendation (List.mem_singleton.mpr rfl)

/-- C2: during the walk, a user in the users list is counted as attending a
candidate start iff one of their availability intervals for the event contains
the candidate meeting interval, with both boundary comparisons inclusive. -/
theorem C2_attending_iff_containment {users : List User}
    {allAvailabilities : List UserAvailability} {durationMinutes startTime : Int}
    {user : User} (hu : user ∈ users) :
    (user ∈ matchingUsersAt users allAvailabilities durationMinutes startTime ↔
      ∃ avail ∈ allAvailabilities, avail.userID = user.id ∧
        avail.startTime ≤ startTime ∧
        startTime + durationMinutes ≤ avail.endTime) ∧
    (user ∈ nonMatchingUsersAt users allAvailabilities durationMinutes startTime ↔
      ¬ ∃ avail ∈ allAvailabilities, avail.userID = user.id ∧
        avail.startTime ≤ startTime ∧
        startTime + durationMinutes ≤ avail.endTime) := by
  have key : isUserAvailable allAvailabilities durationMinutes startTime user = true ↔
      ∃ avail ∈ allAvailabilities, avail.userID = user.id ∧
        avail.startTime ≤ startTime ∧ startTime + durationMinutes ≤ avail.endTime := by
    unfold isUserAvailable availabilitiesFor
    rw [List.any_eq_true]
    constructor
    · rintro ⟨avail, hmem, hcond⟩
      rw [List.mem_filter] at hmem
      rw [Bool.and_eq_true, decide_eq_true_iff, decide_eq_true_iff] at hcond
      refine ⟨avail, hmem.1, ?_, hcond.1, hcond.2⟩
      have := hmem.2
      rwa [beq_iff_eq] at this
    · rintro ⟨avail, hmem, hid, h1, h2⟩
      refine ⟨avail, List.mem_filter.mpr ⟨hmem, ?_⟩, ?_⟩
      · rwa [beq_iff_eq]
      · rw [Bool.and_eq_true, decide_eq_true_iff, decide_eq_true_iff]
        exact ⟨h1, h2⟩
  constructor
  · rw [matchingUsersAt, List.mem_filter]
    simp only [hu, true_and]
    exact key
  · rw [nonMatchingUsersAt, List.mem_filter]
    simp only [hu, true_and, Bool.not_eq_true']
    rw [Bool.eq_false_iff]
    exact not_congr key

/-- C2 witness at the boundary case of the scenario: user A's availability
interval 10:30-11:30 exactly equals the candidate interval at start 10:30, and
A is counted as attending. -/
theorem C2_witness :
    (userA ∈ matchingUsersAt exampleUsers exampleAvailabilities 60 630 ↔
      ∃ avail ∈ exampleAvailabilities, avail.userID = userA.id ∧
        avail.startTime ≤ 630 ∧ 630 + 60 ≤ avail.endTime) ∧
    (userA ∈ nonMatchingUsersAt exampleUsers exampleAvailabilities 60 630 ↔
      ¬ ∃ avail ∈ exampleAvailabilities, avail.userID = userA.id ∧
        avail.startTime ≤ 630 ∧ 630 + 60 ≤ avail.endTime) :=
  C2_attending_iff_containment (by decide)

/-- C4: the returned list is sorted by matching percentage in non-increasing
order: every adjacent pair is ordered. -/
theorem C4_sorted_descending {c : Collaborators} {recs : List TimeSlotRecommendation}
    (h : GetRecommendations c = .ok recs) :
    List.Chain' (fun a b => b.matchingPercentage ≤ a.matchingPercentage) recs := by
  obtain ⟨event, timeSlots, allAvailabilities, users, -, -, -, -, hrecs⟩ :=
    getRecommendations_ok h
  rw [hrecs]
  exact List.Pairwise.chain' (pairwise_sortRecommendations _)

theorem C4_witness :
    List.Chain' (fun a b => b.matchingPercentage ≤ a.matchingPercentage)
      [exampleRecommendation] :=
  C4_sorted_descending getRecommendations_example

/-- C10: a recommendation is emitted only with at least one attending user, and
the attending users are drawn from the users list, so whenever the matching
percentage of an emitted recommendation is computed the denominator (the user
count) is strictly positive. -/
theorem C10_denominator_positive {durationMinutes : Int} {users : List User}
    {allAvailabilities : List UserAvailability} {slot : TimeSlot}
    {r : TimeSlotRecommendation}
    (h : slotRecommendation durationMinutes users allAvailabilities slot = some r) :
    0 < users.length := by
  obtain ⟨-, hne, -, -, -, -, -, -⟩ := slotRecommendation_some h
  unfold walkResult at hne
  rcases walk_foldl_spec users allAvailabilities durationMinutes
      (candidateStarts slot.startTime (slot.endTime - durationMinutes)) with
    ⟨hst, -⟩ | ⟨t₀, l₁, l₂, -, -, -, -, hbest, -⟩
  · rw [hst] at hne
    exact absurd rfl hne
  · rw [hbest] at hne
    rcases List.exists_mem_of_ne_nil _ hne with ⟨u, hu⟩
    have := (List.mem_filter.mp hu).1
    exact List.length_pos.mpr (fun hnil => by rw [hnil] at this; exact absurd this (by simp))

theorem C10_witness : 0 < exampleUsers.length :=
  C10_denominator_positive
    (show slotRecommendation 60 exampleUsers exampleAvailabilities exampleSlot =
      some exampleRecommendation by
      have h : slotRecommendation 60 exampleUsers exampleAvailabilities exampleSlot = some
          { exampleRecommendation with
              matchingPercentage := ((2 : ℕ) : ℚ) / ((2 : ℕ) : ℚ) * 100 } := rfl
      rw [h]
      simp [exampleRecommendation])

theorem mem_matchingUsersAt {users : List User} {allAvailabilities : List UserAvailability}
    {durationMinutes t : Int} {u : User} :
    u ∈ matchingUsersAt users allAvailabilities durationMinutes t ↔
      u ∈ users ∧ isUserAvailable allAvailabilities durationMinutes t u = true := by
  rw [matchingUsersAt, List.mem_filter]

theorem mem_nonMatchingUsersAt {users : List User}
    {allAvailabilities : List UserAvailability} {durationMinutes t : Int} {u : User} :
    u ∈ nonMatchingUsersAt users allAvailabilities durationMinutes t ↔
      u ∈ users ∧ isUserAvailable allAvailabilities durationMinutes t u = false := by
  rw [nonMatchingUsersAt, List.mem_filter]
  simp only [Bool.not_eq_true']

/-- C3: every emitted recommendation's percentage is 100 times the attending
count over the distinct-user count; a slot with no users or with zero attending
users at every candidate start yields no recommendation. -/
theorem C3_percentage_formula {c : Collaborators} {recs : List TimeSlotRecommendation}
    {event : Event} {allAvailabilities : List UserAvailability} {users : List User}
    (h : GetRecommendations c = .ok recs) (hev : c.findEventByID = .ok event)
    (hav : c.findAvailabilitiesByEvent = .ok allAvailabilities)
    (hus : c.findAllUsersByEvent = .ok users) :
    (∀ r ∈ recs, r.matchingPercentage =
      100 * (r.matchingUsers.length : ℚ) / (users.length : ℚ)) ∧
    ∀ slot : TimeSlot,
      (users = [] ∨
        ∀ t ∈ candidateStarts slot.startTime (slot.endTime - event.durationMinutes),
          matchingUsersAt users allAvailabilities event.durationMinutes t = []) →
      slotRecommendation event.durationMinutes users allAvailabilities slot = none := by
  constructor
  · intro r hr
    obtain ⟨event', timeSlots, allAvailabilities', users', slot, hev', hts', hav', hus',
      hslot, hsr⟩ := rec_origin h hr
    rw [hev] at hev'
    obtain rfl := Except.ok.inj hev'
    rw [hav] at hav'
    obtain rfl := Except.ok.inj hav'
    rw [hus] at hus'
    obtain rfl := Except.ok.inj hus'
    obtain ⟨-, -, -, hm, -, hpct, -, -⟩ := slotRecommendation_some hsr
    rw [hpct, hm]
    ring
  · intro slot hz
    exact slotRecommendation_none_of_no_attendance hz

theorem C3_witness :
    (∀ r ∈ [exampleRecommendation], r.matchingPercentage =
      100 * (r.matchingUsers.length : ℚ) / (exampleUsers.length : ℚ)) ∧
    ∀ slot : TimeSlot,
      (exampleUsers = [] ∨
        ∀ t ∈ candidateStarts slot.startTime (slot.endTime - exampleEvent.durationMinutes),
          matchingUsersAt exampleUsers exampleAvailabilities exampleEvent.durationMinutes
            t = []) →
      slotRecommendation exampleEvent.durationMinutes exampleUsers exampleAvailabilities
        slot = none :=
  C3_percentage_formula getRecommendations_example rfl rfl rfl

/-- C6: the matching and the non-matching users of every emitted recommendation
are disjoint, together they are exactly the distinct users holding availability
for the event, and their counts add up to the user count. -/
theorem C6_matching_nonmatching_partition {c : Collaborators}
    {recs : List TimeSlotRecommendation} {users : List User} {r : TimeSlotRecommendation}
    (h : GetRecommendations c = .ok recs) (hus : c.findAllUsersByEvent = .ok users)
    (hr : r ∈ recs) :
    (∀ u : User, (u ∈ r.matchingUsers ∨ u ∈ r.nonMatchingUsers) ↔ u ∈ users) ∧
    (∀ u : User, ¬ (u ∈ r.matchingUsers ∧ u ∈ r.nonMatchingUsers)) ∧
    r.matchingUsers.length + r.nonMatchingUsers.length = users.length := by
  obtain ⟨event, timeSlots, allAvailabilities, users', slot, hev', hts', hav', hus',
    hslot, hsr⟩ := rec_origin h hr
  rw [hus] at hus'
  obtain rfl := Except.ok.inj hus'
  obtain ⟨-, hne, -, hm, hnm, -, -, -⟩ := slotRecommendation_some hsr
  unfold walkResult at hne hm hnm
  rcases walk_foldl_spec users allAvailabilities event.durationMinutes
      (candidateStarts slot.startTime (slot.endTime - event.durationMinutes)) with
    ⟨hst, -⟩ | ⟨t₀, l₁, l₂, -, -, -, -, hbest, hbnon⟩
  · rw [hst] at hne
    exact absurd rfl hne
  · rw [hbest] at hm
    rw [hbnon] at hnm
    rw [hm, hnm]
    refine ⟨fun u => ?_, fun u => ?_, ?_⟩
    · rw [mem_matchingUsersAt, mem_nonMatchingUsersAt]
      constructor
      · rintro (⟨hu, -⟩ | ⟨hu, -⟩) <;> exact hu
      · intro hu
        cases hbool : isUserAvailable allAvailabilities event.durationMinutes t₀ u with
        | true => exact Or.inl ⟨hu, rfl⟩
        | false => exact Or.inr ⟨hu, rfl⟩
    · rw [mem_matchingUsersAt, mem_nonMatchingUsersAt]
      rintro ⟨⟨-, h1⟩, ⟨-, h2⟩⟩
      rw [h1] at h2
      exact Bool.noConfusion h2
    · rw [matchingUsersAt, nonMatchingUsersAt]
      exact (List.length_eq_length_filter_add
        (isUserAvailable allAvailabilities event.durationMinutes t₀)).symm

theorem C6_witness :
    (∀ u : User, (u ∈ exampleRecommendation.matchingUsers ∨
      u ∈ exampleRecommendation.nonMatchingUsers) ↔ u ∈ exampleUsers) ∧
    (∀ u : User, ¬ (u ∈ exampleRecommendation.matchingUsers ∧
      u ∈ exampleRecommendation.nonMatchingUsers)) ∧
    exampleRecommendation.matchingUsers.length +
      exampleRecommendation.nonMatchingUsers.length = exampleUsers.length :=
  C6_matching_nonmatching_partition getRecommendations_example rfl
    (List.mem_singleton.mpr rfl)

/-- C7: every start option of an emitted recommendation lies on the 15-minute
grid anchored at the slot's start and, advanced by the event duration, stays
within the slot's bounds. -/
theorem C7_start_options_within_slot {c : Collaborators}
    {recs : List TimeSlotRecommendation} {event : Event} {r : TimeSlotRecommendation}
    (h : GetRecommendations c = .ok recs) (hev : c.findEventByID = .ok event)
    (hr : r ∈ recs) :
    ∀ t ∈ r.startOptions,
      r.timeSlot.startTime ≤ t ∧ t + event.durationMinutes ≤ r.timeSlot.endTime ∧
      ∃ k : Nat, t = r.timeSlot.startTime + 15 * k := by
  intro t ht
  obtain ⟨event', timeSlots, allAvailabilities, users, slot, hev', hts', hav', hus',
    hslot, hsr⟩ := rec_origin h hr
  rw [hev] at hev'
  obtain rfl := Except.ok.inj hev'
  obtain ⟨-, -, hslot', -, -, -, -, hopts⟩ := slotRecommendation_some hsr
  rw [hopts] at ht
  unfold walkResult at ht
  have hmem := walk_startOptions_mem users allAvailabilities event.durationMinutes _ t ht
  obtain ⟨h1, h2, k, hk⟩ := mem_candidateStarts hmem
  rw [hslot']
  exact ⟨h1, by omega, k, hk⟩

theorem C7_witness :
    exampleRecommendation.timeSlot.startTime ≤ 630 ∧
    630 + exampleEvent.durationMinutes ≤ exampleRecommendation.timeSlot.endTime ∧
    ∃ k : Nat, (630 : Int) = exampleRecommendation.timeSlot.startTime + 15 * k :=
  C7_start_options_within_slot getRecommendations_example rfl
    (List.mem_singleton.mpr rfl) 630 (by decide)

/-- C9: the matching/non-matching sets of an emitted recommendation are the
partition computed at the earliest candidate start achieving the maximum
attending count; every later candidate only ties (never exceeds) that count and
leaves the recorded sets unchanged. -/
theorem C9_best_sets_from_earliest_max {c : Collaborators}
    {recs : List TimeSlotRecommendation} {event : Event}
    {allAvailabilities : List UserAvailability} {users : List User}
    {r : TimeSlotRecommendation}
    (h : GetRecommendations c = .ok recs) (hev : c.findEventByID = .ok event)
    (hav : c.findAvailabilitiesByEvent = .ok allAvailabilities)
    (hus : c.findAllUsersByEvent = .ok users) (hr : r ∈ recs) :
    ∃ t₀ l₁ l₂,
      candidateStarts r.timeSlot.startTime
        (r.timeSlot.endTime - event.durationMinutes) = l₁ ++ t₀ :: l₂ ∧
      (∀ t ∈ l₁,
        (matchingUsersAt users allAvailabilities event.durationMinutes t).length <
        (matchingUsersAt users allAvailabilities event.durationMinutes t₀).length) ∧
      (∀ t ∈ l₂,
        (matchingUsersAt users allAvailabilities event.durationMinutes t).length ≤
        (matchingUsersAt users allAvailabilities event.durationMinutes t₀).length) ∧
      r.matchingUsers = matchingUsersAt users allAvailabilities event.durationMinutes t₀ ∧
      r.nonMatchingUsers =
        nonMatchingUsersAt users allAvailabilities event.durationMinutes t₀ := by
  obtain ⟨event', timeSlots, allAvailabilities', users', slot, hev', hts', hav', hus',
    hslot, hsr⟩ := rec_origin h hr
  rw [hev] at hev'
  obtain rfl := Except.ok.inj hev'
  rw [hav] at hav'
  obtain rfl := Except.ok.inj hav'
  rw [hus] at hus'
  obtain rfl := Except.ok.inj hus'
  obtain ⟨-, hne, hslotEq, hm, hnm, -, -, -⟩ := slotRecommendation_some hsr
  unfold walkResult at hne hm hnm
  rcases walk_foldl_spec users allAvailabilities event.durationMinutes
      (candidateStarts slot.startTime (slot.endTime - event.durationMinutes)) with
    ⟨hst, -⟩ | ⟨t₀, l₁, l₂, heq, -, hlt, hle, hbest, hbnon⟩
  · rw [hst] at hne
    exact absurd rfl hne
  · rw [hslotEq]
    exact ⟨t₀, l₁, l₂, heq, hlt, hle, by rw [hm, hbest], by rw [hnm, hbnon]⟩

theorem C9_witness :
    ∃ t₀ l₁ l₂,
      candidateStarts exampleRecommendation.timeSlot.startTime
        (exampleRecommendation.timeSlot.endTime - exampleEvent.durationMinutes) =
        l₁ ++ t₀ :: l₂ ∧
      (∀ t ∈ l₁,
        (matchingUsersAt exampleUsers exampleAvailabilities
          exampleEvent.durationMinutes t).length <
        (matchingUsersAt exampleUsers exampleAvailabilities
          exampleEvent.durationMinutes t₀).length) ∧
      (∀ t ∈ l₂,
        (matchingUsersAt exampleUsers exampleAvailabilities
          exampleEvent.durationMinutes t).length ≤
        (matchingUsersAt exampleUsers exampleAvailabilities
          exampleEvent.durationMinutes t₀).length) ∧
      exampleRecommendation.matchingUsers =
        matchingUsersAt exampleUsers exampleAvailabilities
          exampleEvent.durationMinutes t₀ ∧
      exampleRecommendation.nonMatchingUsers =
        nonMatchingUsersAt exampleUsers exampleAvailabilities
          exampleEvent.durationMinutes t₀ :=
  C9_best_sets_from_earliest_max getRecommendations_example rfl rfl rfl
    (List.mem_singleton.mpr rfl)

/-- C8 counterexample: with the event lookup succeeding but the time-slot fetch
failing, GetRecommendations still signals failure — refuting the claim that
failure occurs only when the event lookup fails. -/
def failingCollaborators : Collaborators :=
  { findEventByID := .ok exampleEvent
    findTimeSlotsByEventID := .error "time slot fetch failed"
    findAvailabilitiesByEvent := .ok exampleAvailabilities
    findAllUsersByEvent := .ok exampleUsers }

theorem C8_counterexample :
    GetRecommendations failingCollaborators = .error "time slot fetch failed" ∧
    failingCollaborators.findEventByID = .ok exampleEvent :=
  ⟨rfl, rfl⟩

/-- C8 amended: GetRecommendations signals failure only when one of its four
collaborator fetches fails — any error it returns is the error of the event
lookup, the time-slot fetch, the availability fetch or the distinct-user
fetch; whenever all four fetches succeed the computation itself never errors,
and an empty slot list or an empty user list yields the empty result rather
than an error. -/
theorem C8_amended_failure_conditions (c : Collaborators) :
    (∀ msg, GetRecommendations c = .error msg →
      c.findEventByID = .error msg ∨ c.findTimeSlotsByEventID = .error msg ∨
      c.findAvailabilitiesByEvent = .error msg ∨ c.findAllUsersByEvent = .error msg) ∧
    ∀ event timeSlots allAvailabilities users,
      c.findEventByID = .ok event → c.findTimeSlotsByEventID = .ok timeSlots →
      c.findAvailabilitiesByEvent = .ok allAvailabilities →
      c.findAllUsersByEvent = .ok users →
      GetRecommendations c = .ok (sortRecommendations (timeSlots.filterMap
        (slotRecommendation event.durationMinutes users allAvailabilities))) ∧
      ((timeSlots = [] ∨ users = []) → GetRecommendations c = .ok []) := by
  constructor
  · intro msg hmsg
    unfold GetRecommendations at hmsg
    cases hev : c.findEventByID with
    | error e =>
      rw [hev] at hmsg
      obtain rfl := Except.error.inj hmsg
      exact Or.inl rfl
    | ok event =>
      rw [hev] at hmsg
      cases hts : c.findTimeSlotsByEventID with
      | error e =>
        rw [hts] at hmsg
        obtain rfl := Except.error.inj hmsg
        exact Or.inr (Or.inl rfl)
      | ok timeSlots =>
        rw [hts] at hmsg
        cases hav : c.findAvailabilitiesByEvent with
        | error e =>
          rw [hav] at hmsg
          obtain rfl := Except.error.inj hmsg
          exact Or.inr (Or.inr (Or.inl rfl))
        | ok allAvailabilities =>
          rw [hav] at hmsg
          cases hus : c.findAllUsersByEvent with
          | error e =>
            rw [hus] at hmsg
            obtain rfl := Except.error.inj hmsg
            exact Or.inr (Or.inr (Or.inr rfl))
          | ok users =>
            rw [hus] at hmsg
            exact Except.noConfusion hmsg
  · intro event timeSlots allAvailabilities users hev hts hav hus
    have hrun : GetRecommendations c = .ok (sortRecommendations (timeSlots.filterMap
        (slotRecommendation event.durationMinutes users allAvailabilities))) := by
      unfold GetRecommendations
      rw [hev, hts, hav, hus]
      rfl
    refine ⟨hrun, ?_⟩
    rintro (rfl | rfl)
    · exact hrun
    · rw [hrun]
      have hnone : ∀ slot ∈ timeSlots,
          slotRecommendation event.durationMinutes [] allAvailabilities slot = none :=
        fun slot _ => slotRecommendation_none_of_no_attendance (Or.inl rfl)
      rw [List.filterMap_eq_nil_iff.mpr hnone]
      rfl

theorem C8_witness :
    GetRecommendations exampleCollaborators =
      .ok (sortRecommendations ([exampleSlot, shortSlot].filterMap
        (slotRecommendation exampleEvent.durationMinutes exampleUsers
          exampleAvailabilities))) ∧
    (([exampleSlot, shortSlot] = ([] : List TimeSlot) ∨ exampleUsers = []) →
      GetRecommendations exampleCollaborators = .ok []) :=
  (C8_amended_failure_conditions exampleCollaborators).2
    exampleEvent [exampleSlot, shortSlot] exampleAvailabilities exampleUsers
    rfl rfl rfl rfl

end MeetingScheduler
